import Mathlib

/-!
Verification of the toolchain build/packaging pipeline in
`scripts/build_toolchain.py` (repository danlapid/chromium-toolchain-arm64).

The Python source is shallowly embedded: each function of the script that the
claims touch is translated into an executable Lean definition over explicit
state (an abstract file system), and the `sys.exit(1)` failure sites are
modelled as values of an error type named after the error taxonomy of the spec
(spec section 7).  Subprocess boundaries (git, build.py, strip) are inputs.
-/

namespace BuildToolchain

/-- Error taxonomy.  The script reports failures by logging and `sys.exit(1)`;
the spec (section 7) names the distinct failure causes, and each `sys.exit(1)`
site of `build_toolchain.py` is mapped to the corresponding constructor.
`typeError` and `fileNotFoundError` model uncaught Python runtime exceptions
(`TypeError`, `FileNotFoundError`). -/
inductive Err where
  | manifestParseError
  | toolchainNotFoundError
  | missingExecutableError (tool : String)
  | externalBuildError
  | releaseDirMissingError
  | stampMismatchError (actual expected : String)
  | manifestVerificationError (missing : List String)
  | typeError
  | fileNotFoundError
deriving DecidableEq, Repr

/-- Character class of the regex token `\d` (ASCII decimal digit), as used in
the patterns of `get_chromium_and_llvm_info` (lines 80 and 88). -/
def isDig (c : Char) : Bool := decide ('0' ≤ c) && decide (c ≤ '9')

/-- Character class of the regex token `[a-zA-Z0-9]` (line 80/88). -/
def isAlnum (c : Char) : Bool :=
  isDig c || (decide ('a' ≤ c) && decide (c ≤ 'z')) || (decide ('A' ≤ c) && decide (c ≤ 'Z'))

/-- Consume an exact literal from the front of the input (regex literal text).
Returns the remainder on success. -/
def dropLit : List Char → List Char → Option (List Char)
  | [], s => some s
  | _ :: _, [] => none
  | c :: cs, x :: xs => if x = c then dropLit cs xs else none

/-- Literal head of both revision patterns. -/
def litCLang : List Char := "clang-llvmorg-".data

/-- Literal middle of both revision patterns. -/
def litInit : List Char := "-init-".data

/-- Consume the literal `-` (used for the `-` separators of the patterns). -/
def expectDash (l : List Char) : Option (List Char) :=
  match l with
  | c :: r => if c = '-' then some r else none
  | [] => none

/-- Require that the input starts with a digit (the trailing `\d+` of the
patterns only needs its first digit to succeed; the rest of the text is
unconstrained because `re.search` matches a prefix of the remaining text). -/
def expectDigitHead (l : List Char) : Option Unit :=
  match l with
  | e :: _ => if isDig e then some () else none
  | [] => none

/-- Anchored match of the primary pattern
`clang-llvmorg-(\d+)-init-(\d+)-([a-zA-Z0-9]{8,})-\d+` (line 80) at the head
of the input, returning the three captured groups (major, minor, hash).

Backtracking is not needed for this pattern: each greedy run (`\d+`,
`[a-zA-Z0-9]{8,}`) is followed by the literal `-`, which belongs to neither
character class, so the maximal run is the only viable choice; the final
`\d+` only needs one digit. -/
def matchAtP (s : List Char) : Option (List Char × List Char × List Char) :=
  (dropLit litCLang s).bind fun r1 =>
    if r1.takeWhile isDig = [] then none else
    (dropLit litInit (r1.dropWhile isDig)).bind fun r2 =>
      if r2.takeWhile isDig = [] then none else
      (expectDash (r2.dropWhile isDig)).bind fun r3 =>
        if (r3.takeWhile isAlnum).length < 8 then none else
        (expectDash (r3.dropWhile isAlnum)).bind fun r4 =>
          (expectDigitHead r4).bind fun _ =>
            some (r1.takeWhile isDig, r2.takeWhile isDig, r3.takeWhile isAlnum)

/-- Anchored match of the fallback pattern
`clang-llvmorg-\d+-init-\d+-([a-zA-Z0-9]{8,})-\d+` (line 88): the same shape
with only the hash captured (group 1). -/
def matchAtF (s : List Char) : Option (List Char) :=
  (dropLit litCLang s).bind fun r1 =>
    if r1.takeWhile isDig = [] then none else
    (dropLit litInit (r1.dropWhile isDig)).bind fun r2 =>
      if r2.takeWhile isDig = [] then none else
      (expectDash (r2.dropWhile isDig)).bind fun r3 =>
        if (r3.takeWhile isAlnum).length < 8 then none else
        (expectDash (r3.dropWhile isAlnum)).bind fun r4 =>
          (expectDigitHead r4).bind fun _ =>
            some (r3.takeWhile isAlnum)

/-- `re.search` for the primary pattern: try every start position from the
left, return the first (leftmost) anchored match. -/
def searchP : List Char → Option (List Char × List Char × List Char)
  | [] => none
  | c :: rest =>
    match matchAtP (c :: rest) with
    | some r => some r
    | none => searchP rest

/-- `re.search` for the fallback pattern. -/
def searchF : List Char → Option (List Char)
  | [] => none
  | c :: rest =>
    match matchAtF (c :: rest) with
    | some r => some r
    | none => searchF rest

/-- Revision extraction of `get_chromium_and_llvm_info` (lines 79-95): search
the DEPS text for the primary pattern and return capture group 3; if it does
not match anywhere, search for the fallback pattern and return capture
group 1; if neither matches, fail (in the source: log and `sys.exit(1)`;
spec: `ManifestParseError`). -/
def get_llvm_revision (deps : List Char) : Except Err (List Char) :=
  match searchP deps with
  | some (_, _, h) => Except.ok h
  | none =>
    match searchF deps with
    | some h => Except.ok h
    | none => Except.error Err.manifestParseError

/-- Single-pattern extractor, written from the words of the spec for the
refinement claim: only the primary rule is consulted, its hash capture is
returned, and failure to match is `ManifestParseError`. -/
def get_llvm_revision_single (deps : List Char) : Except Err (List Char) :=
  match searchP deps with
  | some (_, _, h) => Except.ok h
  | none => Except.error Err.manifestParseError

/-- The structured identifier shape `clang-llvmorg-<major>-init-<minor>-<hash>-<build>`
as a character list, for given part strings. -/
def shapeList (maj minr hash bld : List Char) : List Char :=
  litCLang ++ maj ++ litInit ++ minr ++ '-' :: hash ++ '-' :: bld

/-- Well-formedness of the parts of the identifier shape: numeric major,
minor and build, and an alphanumeric hash of length at least 8. -/
structure WfShape (maj minr hash bld : List Char) : Prop where
  majNe : maj ≠ []
  majDig : ∀ c ∈ maj, isDig c = true
  minrNe : minr ≠ []
  minrDig : ∀ c ∈ minr, isDig c = true
  hashLen : 8 ≤ hash.length
  hashAl : ∀ c ∈ hash, isAlnum c = true
  bldNe : bld ≠ []
  bldDig : ∀ c ∈ bld, isDig c = true

/-- The text `t` contains, starting at index `i`, a substring of the
identifier shape with the given well-formed parts. -/
def OccursAt (t : List Char) (i : Nat) (maj minr hash bld : List Char) : Prop :=
  WfShape maj minr hash bld ∧ ∃ rest, t.drop i = shapeList maj minr hash bld ++ rest

/-- Some well-formed identifier shape starts at index `i` of `t`. -/
def HasShapeAt (t : List Char) (i : Nat) : Prop :=
  ∃ maj minr hash bld, OccursAt t i maj minr hash bld

/-- Abstract file system for the locator: the set of paths (relative to the
chromium checkout) that exist on disk.  `Path.exists()` is membership. -/
structure FsSet where
  paths : List String
deriving DecidableEq, Repr

/-- `Path.exists()` on the abstract file system. -/
def FsSet.existsPath (fs : FsSet) (p : String) : Bool := fs.paths.contains p

/-- `chromium_dir / "third_party/llvm-bootstrap-install"` (line 132). -/
def bootstrapDir : String := "third_party/llvm-bootstrap-install"

/-- `chromium_dir / "third_party/llvm-build/Release+Asserts"` (line 133). -/
def llvmReleaseDir : String := "third_party/llvm-build/Release+Asserts"

/-- `verify_toolchain` (lines 127-146): prefer the bootstrap install when it
and its `bin` subdirectory exist, else the release build when it and its
`bin` subdirectory exist, else fail (source: log "No LLVM installation
found" and `sys.exit(1)`; spec: `ToolchainNotFoundError`).  The source
performs no other check: no individual executable is examined. -/
def verify_toolchain (fs : FsSet) : Except Err String :=
  if fs.existsPath bootstrapDir && fs.existsPath (bootstrapDir ++ "/bin") then
    Except.ok bootstrapDir
  else if fs.existsPath llvmReleaseDir && fs.existsPath (llvmReleaseDir ++ "/bin") then
    Except.ok llvmReleaseDir
  else
    Except.error Err.toolchainNotFoundError

/-- `build_llvm` (lines 100-124): run the Chromium `build.py` script as a subprocess;
on a non-zero exit code, `run_command` raises `CalledProcessError`, which
`build_llvm` catches and turns into `sys.exit(1)` (spec:
`ExternalBuildError`).  Only the exit code of the black-box subprocess is
observed, so it is the input here. -/
def build_llvm (buildExit : Nat) : Except Err Unit :=
  if buildExit ≠ 0 then Except.error Err.externalBuildError else Except.ok ()

/-- Inputs of one orchestrated pipeline run: the DEPS text fetched by the
(external) source sync, the exit code of the external build subprocess, and
the file-system state afterwards. -/
structure BuildEnv where
  deps : List Char
  buildExit : Nat
  fs : FsSet

/-- `build_toolchain` (lines 149-166): sync + extract revision, then build,
then locate.  Each step exits the process on failure (`sys.exit(1)` inside
the step, or the `except` blocks of `build_toolchain`), so failures
propagate and later stages never run. -/
def build_toolchain (env : BuildEnv) : Except Err String :=
  match get_llvm_revision env.deps with
  | Except.error e => Except.error e
  | Except.ok _ =>
    match build_llvm env.buildExit with
    | Except.error e => Except.error e
    | Except.ok _ => verify_toolchain env.fs

/-- A relative path, as its `/`-separated components. -/
abbrev RelPath := List String

/-- A file-system node inside a directory tree: a regular file (with content
bytes and a modification time, the metadata `shutil.copy2` preserves and
`tarfile` records), a directory, or a symbolic link holding its target
string. -/
inductive Node where
  | file (content : List Nat) (mtime : Nat)
  | dir
  | symlink (target : String)
deriving DecidableEq, Repr

/-- A directory tree (the LLVM release dir, or the staging/package dir),
as a list of entries at relative paths.  Ancestor directories of an entry
are implied. -/
structure Tree where
  entries : List (RelPath × Node)
deriving DecidableEq, Repr

/-- `p` is an initial segment of `q` (so a path `p` "exists" whenever some
entry lies at or below it). -/
def isLead : RelPath → RelPath → Bool
  | [], _ => true
  | _ :: _, [] => false
  | a :: as, b :: bs => (a == b) && isLead as bs

/-- `(root / p).exists()` on a tree: some entry lies at `p` or below it. -/
def treeHas (t : Tree) (p : RelPath) : Bool := t.entries.any (fun e => isLead p e.1)

/-- Split a POSIX relative path string on `/` (the component decomposition
used when a manifest rule such as `bin/clang` is joined to a root). -/
def splitPathAux : List Char → List Char → List String
  | [], cur => [⟨cur⟩]
  | c :: rest, cur => if c = '/' then ⟨cur⟩ :: splitPathAux rest [] else splitPathAux rest (cur ++ [c])

/-- Components of a manifest rule path. -/
def splitPath (s : String) : RelPath := splitPathAux s.data []

/-- `w.replace("$V", rv)` (line 347, the source uses single quotes) on character lists: substitute every
occurrence of the two-character placeholder `$V`. -/
def substV : List Char → List Char → List Char
  | [], _ => []
  | '$' :: 'V' :: rest, rv => rv ++ substV rest rv
  | c :: rest, rv => c :: substV rest rv

/-- `w.replace("$V", RELEASE_VERSION)` on strings. -/
def substVersion (w rv : String) : String := ⟨substV w.data rv.data⟩

/-- the test `* in w` (line 352, `*` quoted as a character there): the rule
contains a glob wildcard.  The rule language of the manifest uses only `*` wildcards, and the source tests for exactly this
character. -/
def hasWildcard (w : String) : Bool := w.data.contains '*'

/-- The wanted-file manifest of `package_toolchain` for a Linux host
(lines 211-344 with `sys.platform` = `linux`, so `exe_ext` is empty and the
posix, non-darwin (Fuchsia) and linux rule sets all apply), before `$V`
substitution.  `stampFilename` is `STAMP_FILENAME` imported from
the Chromium `update.py` script. -/
def wantRulesRaw (stampFilename : String) : List String :=
  [stampFilename,
   "bin/llvm-pdbutil",
   "bin/llvm-symbolizer",
   "bin/llvm-undname",
   "lib/clang/$V/include/*",
   "lib/clang/$V/share/asan_*list.txt",
   "lib/clang/$V/share/cfi_*list.txt",
   "bin/clang",
   "bin/lld",
   "bin/llvm-ar",
   "bin/llvm-ml",
   "bin/llvm-readobj",
   "lib/clang/$V/lib/aarch64-unknown-fuchsia/libclang_rt.builtins.a",
   "lib/clang/$V/lib/x86_64-unknown-fuchsia/libclang_rt.builtins.a",
   "lib/clang/$V/lib/x86_64-unknown-fuchsia/libclang_rt.profile.a",
   "lib/clang/$V/lib/x86_64-unknown-fuchsia/libclang_rt.asan.so",
   "lib/clang/$V/lib/x86_64-unknown-fuchsia/libclang_rt.asan-preinit.a",
   "lib/clang/$V/lib/x86_64-unknown-fuchsia/libclang_rt.asan_static.a",
   "bin/llvm-objcopy",
   "bin/llvm-nm",
   "lib/clang/$V/lib/aarch64-unknown-linux-gnu/libclang_rt.asan.a",
   "lib/clang/$V/lib/aarch64-unknown-linux-gnu/libclang_rt.asan.a.syms",
   "lib/clang/$V/lib/i386-unknown-linux-gnu/libclang_rt.asan.a",
   "lib/clang/$V/lib/x86_64-unknown-linux-gnu/libclang_rt.asan.a",
   "lib/clang/$V/lib/x86_64-unknown-linux-gnu/libclang_rt.asan.a.syms",
   "lib/clang/$V/lib/aarch64-unknown-linux-gnu/libclang_rt.asan_static.a",
   "lib/clang/$V/lib/i386-unknown-linux-gnu/libclang_rt.asan_static.a",
   "lib/clang/$V/lib/x86_64-unknown-linux-gnu/libclang_rt.asan_static.a",
   "lib/clang/$V/lib/aarch64-unknown-linux-gnu/libclang_rt.asan_cxx.a",
   "lib/clang/$V/lib/aarch64-unknown-linux-gnu/libclang_rt.asan_cxx.a.syms",
   "lib/clang/$V/lib/i386-unknown-linux-gnu/libclang_rt.asan_cxx.a",
   "lib/clang/$V/lib/x86_64-unknown-linux-gnu/libclang_rt.asan_cxx.a",
   "lib/clang/$V/lib/x86_64-unknown-linux-gnu/libclang_rt.asan_cxx.a.syms",
   "lib/clang/$V/lib/linux/libclang_rt.asan-aarch64-android.so",
   "lib/clang/$V/lib/linux/libclang_rt.asan-arm-android.so",
   "lib/clang/$V/lib/linux/libclang_rt.asan-i686-android.so",
   "lib/clang/$V/lib/linux/libclang_rt.asan-riscv64-android.so",
   "lib/clang/$V/lib/linux/libclang_rt.asan_static-aarch64-android.a",
   "lib/clang/$V/lib/linux/libclang_rt.asan_static-arm-android.a",
   "lib/clang/$V/lib/linux/libclang_rt.asan_static-i686-android.a",
   "lib/clang/$V/lib/linux/libclang_rt.asan_static-riscv64-android.a",
   "lib/clang/$V/lib/linux/libclang_rt.builtins-aarch64-android.a",
   "lib/clang/$V/lib/linux/libclang_rt.builtins-arm-android.a",
   "lib/clang/$V/lib/linux/libclang_rt.builtins-i686-android.a",
   "lib/clang/$V/lib/linux/libclang_rt.builtins-x86_64-android.a",
   "lib/clang/$V/lib/linux/libclang_rt.builtins-riscv64-android.a",
   "lib/clang/$V/lib/aarch64-unknown-linux-gnu/libclang_rt.builtins.a",
   "lib/clang/$V/lib/armv7-unknown-linux-gnueabihf/libclang_rt.builtins.a",
   "lib/clang/$V/lib/i386-unknown-linux-gnu/libclang_rt.builtins.a",
   "lib/clang/$V/lib/x86_64-unknown-linux-gnu/libclang_rt.builtins.a",
   "lib/clang/$V/lib/aarch64-unknown-linux-gnu/clang_rt.crtbegin.o",
   "lib/clang/$V/lib/aarch64-unknown-linux-gnu/clang_rt.crtend.o",
   "lib/clang/$V/lib/armv7-unknown-linux-gnueabihf/clang_rt.crtbegin.o",
   "lib/clang/$V/lib/armv7-unknown-linux-gnueabihf/clang_rt.crtend.o",
   "lib/clang/$V/lib/x86_64-unknown-linux-gnu/clang_rt.crtbegin.o",
   "lib/clang/$V/lib/x86_64-unknown-linux-gnu/clang_rt.crtend.o",
   "lib/clang/$V/lib/linux/libclang_rt.hwasan-aarch64-android.so",
   "lib/clang/$V/lib/linux/libclang_rt.hwasan-preinit-aarch64-android.a",
   "lib/clang/$V/lib/linux/libclang_rt.hwasan-riscv64-android.so",
   "lib/clang/$V/lib/linux/libclang_rt.hwasan-preinit-riscv64-android.a",
   "lib/clang/$V/lib/x86_64-unknown-linux-gnu/libclang_rt.msan.a",
   "lib/clang/$V/lib/x86_64-unknown-linux-gnu/libclang_rt.msan.a.syms",
   "lib/clang/$V/lib/x86_64-unknown-linux-gnu/libclang_rt.msan_cxx.a",
   "lib/clang/$V/lib/x86_64-unknown-linux-gnu/libclang_rt.msan_cxx.a.syms",
   "lib/clang/$V/lib/aarch64-unknown-linux-gnu/libclang_rt.profile.a",
   "lib/clang/$V/lib/armv7-unknown-linux-gnueabihf/libclang_rt.profile.a",
   "lib/clang/$V/lib/i386-unknown-linux-gnu/libclang_rt.profile.a",
   "lib/clang/$V/lib/x86_64-unknown-linux-gnu/libclang_rt.profile.a",
   "lib/clang/$V/lib/linux/libclang_rt.profile-i686-android.a",
   "lib/clang/$V/lib/linux/libclang_rt.profile-x86_64-android.a",
   "lib/clang/$V/lib/linux/libclang_rt.profile-aarch64-android.a",
   "lib/clang/$V/lib/linux/libclang_rt.profile-arm-android.a",
   "lib/clang/$V/lib/linux/libclang_rt.profile-riscv64-android.a",
   "lib/clang/$V/lib/x86_64-unknown-linux-gnu/libclang_rt.tsan.a",
   "lib/clang/$V/lib/x86_64-unknown-linux-gnu/libclang_rt.tsan.a.syms",
   "lib/clang/$V/lib/x86_64-unknown-linux-gnu/libclang_rt.tsan_cxx.a",
   "lib/clang/$V/lib/x86_64-unknown-linux-gnu/libclang_rt.tsan_cxx.a.syms",
   "lib/clang/$V/lib/aarch64-unknown-linux-gnu/libclang_rt.ubsan_standalone.a",
   "lib/clang/$V/lib/aarch64-unknown-linux-gnu/libclang_rt.ubsan_standalone.a.syms",
   "lib/clang/$V/lib/i386-unknown-linux-gnu/libclang_rt.ubsan_standalone.a",
   "lib/clang/$V/lib/x86_64-unknown-linux-gnu/libclang_rt.ubsan_standalone.a",
   "lib/clang/$V/lib/x86_64-unknown-linux-gnu/libclang_rt.ubsan_standalone.a.syms",
   "lib/clang/$V/lib/aarch64-unknown-linux-gnu/libclang_rt.ubsan_standalone_cxx.a",
   "lib/clang/$V/lib/aarch64-unknown-linux-gnu/libclang_rt.ubsan_standalone_cxx.a.syms",
   "lib/clang/$V/lib/i386-unknown-linux-gnu/libclang_rt.ubsan_standalone_cxx.a",
   "lib/clang/$V/lib/x86_64-unknown-linux-gnu/libclang_rt.ubsan_standalone_cxx.a",
   "lib/clang/$V/lib/x86_64-unknown-linux-gnu/libclang_rt.ubsan_standalone_cxx.a.syms",
   "lib/clang/$V/lib/linux/libclang_rt.ubsan_standalone-aarch64-android.so",
   "lib/clang/$V/lib/linux/libclang_rt.ubsan_standalone-arm-android.so",
   "lib/clang/$V/lib/linux/libclang_rt.ubsan_standalone-riscv64-android.so",
   "lib/clang/$V/share/msan_*list.txt"]

/-- The Linux wanted-file manifest after `$V` substitution (line 347). -/
def wantLinux (stampFilename rv : String) : List String :=
  (wantRulesRaw stampFilename).map (fun w => substVersion w rv)

/-- Verification loop of `package_toolchain` (lines 349-359): every rule
without a `*` wildcard whose path does not exist under the release dir is a
miss; the loop visits every rule (it only sets a flag, never breaks), so
all misses accumulate. -/
def missingLiterals (want : List String) (t : Tree) : List String :=
  want.filter (fun w => !hasWildcard w && !treeHas t (splitPath w))

/-- All non-empty initial segments of a path: the ancestors a recursive
directory walk reports for one entry. -/
def leadsOf (p : RelPath) : List RelPath := (List.range p.length).map (fun i => p.take (i + 1))

/-- The descendants enumerated by `LLVM_RELEASE_DIR.rglob("*")` (line 362, a single-quoted glob in the source):
every entry and every implied ancestor directory (possibly with repeats,
which is irrelevant here — only emptiness matters). -/
def rglobPaths (t : Tree) : List RelPath := (t.entries.map (fun e => leadsOf e.1)).flatten

/-- The staging loop of `package_toolchain` (lines 362-393):
`for root, dirs, files in LLVM_RELEASE_DIR.rglob(..)` (line 362) tuple-unpacks each
value yielded by `rglob` — but `rglob` yields `Path` objects, and a `Path`
is not iterable, so the first iteration raises
`TypeError: cannot unpack non-iterable PosixPath object`.  Hence: if the
release tree has no descendants the loop body never runs and the staging
tree stays empty, and otherwise the uncaught `TypeError` aborts packaging
before any file is copied. -/
def stagePhase (t : Tree) : Except Err Tree :=
  match rglobPaths t with
  | [] => Except.ok ⟨[]⟩
  | _ :: _ => Except.error Err.typeError

/-- The OS errors relevant to `Path.symlink_to`. -/
inductive OsErr where
  | fileExists
  | fileNotFound
deriving DecidableEq, Repr

/-- `Path(p).symlink_to(target)`: raises `FileExistsError` when `p` already
exists, `FileNotFoundError` when the parent directory of `p` does not
exist, and otherwise creates the symlink — whether or not the target
exists (a dangling symlink is created silently). -/
def symlinkTo (t : Tree) (p : RelPath) (target : String) : Tree × Option OsErr :=
  if treeHas t p then (t, some OsErr.fileExists)
  else if treeHas t p.dropLast = false then (t, some OsErr.fileNotFound)
  else (⟨t.entries ++ [(p, Node.symlink target)]⟩, none)

/-- Sequencing of statements: once an exception is raised, the rest of the
block is skipped, but file-system changes already made persist. -/
def andThen (r : Tree × Option OsErr) (f : Tree → Tree × Option OsErr) : Tree × Option OsErr :=
  match r with
  | (t, none) => f t
  | (t, some e) => (t, some e)

/-- The `try:` block of lines 398-407: create `clang++` and `clang-cl`
aliases unconditionally, the four `lld` aliases only if `bin/lld` exists,
and `llvm-readelf` only if `bin/llvm-readobj` exists.  The staging tree is
`t`; all paths are relative to the package directory. -/
def binAliasBlock (t : Tree) : Tree × Option OsErr :=
  andThen (symlinkTo t ["bin", "clang++"] "clang") fun t =>
  andThen (symlinkTo t ["bin", "clang-cl"] "clang") fun t =>
  andThen (if treeHas t ["bin", "lld"] then
      andThen (symlinkTo t ["bin", "ld.lld"] "lld") fun t =>
      andThen (symlinkTo t ["bin", "ld64.lld"] "lld") fun t =>
      andThen (symlinkTo t ["bin", "lld-link"] "lld") fun t =>
      symlinkTo t ["bin", "wasm-ld"] "lld"
    else (t, none)) fun t =>
  if treeHas t ["bin", "llvm-readobj"] then symlinkTo t ["bin", "llvm-readelf"] "llvm-readobj"
  else (t, none)

/-- `except FileExistsError: pass` (lines 408-409, 417-418): swallow a
`FileExistsError` raised anywhere in the block (the remaining statements of
the block were already skipped); any other exception propagates. -/
def tryFE (r : Tree × Option OsErr) : Tree × Option OsErr :=
  match r with
  | (t, none) => (t, none)
  | (t, some OsErr.fileExists) => (t, none)
  | (t, some OsErr.fileNotFound) => (t, some OsErr.fileNotFound)

/-- The `try:` block of lines 413-416: `llvm-strip` and
`llvm-install-name-tool` aliases, only if `bin/llvm-objcopy` exists. -/
def objcopyAliasBlock (t : Tree) : Tree × Option OsErr :=
  if treeHas t ["bin", "llvm-objcopy"] then
    andThen (symlinkTo t ["bin", "llvm-strip"] "llvm-objcopy") fun t =>
    symlinkTo t ["bin", "llvm-install-name-tool"] "llvm-objcopy"
  else (t, none)

/-- The `(arch, abi)` pairs of the cros-triple loop (line 421). -/
def crosPairs : List (String × String) := [("armv7", "gnueabihf"), ("aarch64", "gnu"), ("x86_64", "gnu")]

/-- `old.replace("unknown", "cros").replace("armv7", "armv7a")` (line 423),
evaluated at the concrete triples built from `crosPairs` (in each of the
three, `unknown` occurs exactly once and `armv7` only in the armv7 triple). -/
def crosNew (arch abi : String) : String :=
  (if arch = "armv7" then "armv7a" else arch) ++ "-cros-linux-" ++ abi

/-- `old_path` of one cros-loop iteration (line 424). -/
def crosOldPath (rv : String) (pr : String × String) : RelPath :=
  ["lib", "clang", rv, "lib", pr.1 ++ "-unknown-linux-" ++ pr.2]

/-- `new_path` of one cros-loop iteration (line 425). -/
def crosNewPath (rv : String) (pr : String × String) : RelPath :=
  ["lib", "clang", rv, "lib", crosNew pr.1 pr.2]

/-- One iteration of the cros-triple loop (lines 421-430): create the
vendor-specific triple symlink only when the vendor-neutral source directory
exists and the destination does not.  Under that guard the inner
`try/except FileExistsError` can never fire (the destination is absent and
its parent exists because the source lies in the same directory). -/
def crosStep (rv : String) (t : Tree) (pr : String × String) : Tree :=
  if treeHas t (crosOldPath rv pr) && !treeHas t (crosNewPath rv pr) then
    ⟨t.entries ++ [(crosNewPath rv pr, Node.symlink (pr.1 ++ "-unknown-linux-" ++ pr.2))]⟩
  else t

/-- The cros-triple loop over all three pairs. -/
def crosPhase (rv : String) (t : Tree) : Tree := crosPairs.foldl (crosStep rv) t

/-- The whole symlink part of `package_toolchain` (lines 396-430) on a Linux
host: the bin-alias block and the objcopy-alias block, each wrapped in
`except FileExistsError: pass`, then the cros-triple loop.  A
`FileNotFoundError` (parent directory missing) is not caught and aborts
packaging. -/
def symlinkPhase (rv : String) (t : Tree) : Except Err Tree :=
  match tryFE (binAliasBlock t) with
  | (_, some _) => Except.error Err.fileNotFoundError
  | (t1, none) =>
    match tryFE (objcopyAliasBlock t1) with
    | (_, some _) => Except.error Err.fileNotFoundError
    | (t2, none) => Except.ok (crosPhase rv t2)

/-- One member of the tar archive: its archive name (the path including the
`clang-<version>` package directory, as `tar.add(f, arcname=...)` records
it) and the node that is serialized (symlinks preserved as links). -/
structure TarMember where
  arcname : RelPath
  node : Node
deriving DecidableEq, Repr

/-- Strict lexicographic comparison of strings by character code, the
comparison Python uses on path components. -/
def strLtB : List Char → List Char → Bool
  | [], [] => false
  | [], _ :: _ => true
  | _ :: _, [] => false
  | x :: xs, y :: ys => if x < y then true else if y < x then false else strLtB xs ys

/-- Lexicographic (non-strict) comparison of relative paths by components,
the order `sorted()` puts `Path` values in. -/
def pathLeB : RelPath → RelPath → Bool
  | [], _ => true
  | _ :: _, [] => false
  | a :: as, b :: bs => if a = b then pathLeB as bs else strLtB a.data b.data

/-- Archive creation (lines 433-439): walk the package tree, keep the
entries that are files or symlinks (directories are skipped by the
`f.is_file() or f.is_symlink()` test), in sorted relative-path order, each
under its `arcname` (the path prefixed with the package directory name). -/
def archiveMembers (packageName : String) (pt : Tree) : List TarMember :=
  ((pt.entries.filter (fun e => match e.2 with | Node.dir => false | _ => true)).mergeSort
      (fun a b => pathLeB a.1 b.1)).map (fun e => ⟨packageName :: e.1, e.2⟩)

/-- Byte encoding of a string for the archive image. -/
def encStr (s : String) : List Nat := s.data.length :: s.data.map Char.toNat

/-- Byte encoding of a node (its kind, metadata and content). -/
def encNode : Node → List Nat
  | Node.file c m => 0 :: m :: c.length :: c
  | Node.dir => [1]
  | Node.symlink tg => 2 :: encStr tg

/-- Byte encoding of one member record. -/
def encMember (m : TarMember) : List Nat :=
  m.arcname.length :: (m.arcname.map encStr).flatten ++ encNode m.node

/-- The bytes of the archive file: the member records in order.  `tarfile`
with `w:xz` and a fixed preset writes a deterministic function of the member
sequence (names, kinds, stat metadata, contents) — no clock or randomness
enters — which this encoding models. -/
def tarBytes (ms : List TarMember) : List Nat := (ms.map encMember).flatten

/-- Inputs of `package_toolchain` (lines 169-445): whether the release dir
exists (line 193), the content of the stamp file (line 200), `PACKAGE_VERSION`
and `RELEASE_VERSION` imported from `update.py`, and the release tree. -/
structure PkgInput where
  releaseDirExists : Bool
  stamp : String
  packageVersion : String
  releaseVersion : String
  tree : Tree
deriving DecidableEq, Repr

/-- `package_toolchain`, sequenced exactly as the source: release-dir check
(line 193), stamp check (lines 199-203, before any staging work), manifest
verification (lines 349-359, all misses accumulated, `sys.exit(1)` if any),
the staging loop (lines 362-393, which raises `TypeError`, see
`stagePhase`), the symlink phase (lines 396-430) and archive creation
(lines 433-439).  The returned tree is the staging (package) directory
content upon return — `⟨[]⟩` when nothing was ever copied. -/
def package_toolchain (inp : PkgInput) (want : List String) : Except Err (List TarMember) × Tree :=
  if inp.releaseDirExists = false then (Except.error Err.releaseDirMissingError, ⟨[]⟩)
  else if inp.stamp ≠ inp.packageVersion then
    (Except.error (Err.stampMismatchError inp.stamp inp.packageVersion), ⟨[]⟩)
  else if missingLiterals want inp.tree ≠ [] then
    (Except.error (Err.manifestVerificationError (missingLiterals want inp.tree)), ⟨[]⟩)
  else
    match stagePhase inp.tree with
    | Except.error e => (Except.error e, ⟨[]⟩)
    | Except.ok st =>
      match symlinkPhase inp.releaseVersion st with
      | Except.error e => (Except.error e, st)
      | Except.ok st2 =>
        (Except.ok (archiveMembers ("clang-" ++ inp.packageVersion) st2), st2)

/-- Invariant used to reason about the symlink phase: in tree `u`, the guard
path `gp` (the target whose existence gates a group of aliases) is absent,
and no entry at any of the alias paths `aps` is present beyond those already
present in the original tree `t0`. -/
def GuardInv (t0 : Tree) (gp : RelPath) (aps : List RelPath) (u : Tree) : Prop :=
  treeHas u gp = false ∧
    ∀ p ∈ aps, ∀ n : Node, (p, n) ∈ u.entries → (p, n) ∈ t0.entries

/-! ### Lemmas: the two revision regexes -/

theorem dropLit_self : ∀ (pre r : List Char), dropLit pre (pre ++ r) = some r
  | [], _ => rfl
  | c :: cs, r => by simp [dropLit, dropLit_self cs r]

theorem dropLit_eq_append : ∀ {pre s r : List Char}, dropLit pre s = some r → s = pre ++ r
  | [], s, r, h => by simpa [dropLit] using h
  | _ :: _, [], _, h => by simp [dropLit] at h
  | c :: cs, x :: xs, r, h => by
    by_cases hx : x = c
    · subst hx
      simp only [dropLit, if_pos rfl] at h
      simp [dropLit_eq_append h]
    · simp [dropLit, hx] at h

theorem takeWhile_run {p : Char → Bool} :
    ∀ (xs ys : List Char), (∀ c ∈ xs, p c = true) →
      (∀ c, ys.head? = some c → p c = false) →
      (xs ++ ys).takeWhile p = xs ∧ (xs ++ ys).dropWhile p = ys
  | [], ys, _, hys => by
    cases ys with
    | nil => simp
    | cons y ys =>
      have hy := hys y rfl
      simp [List.takeWhile_cons, List.dropWhile_cons, hy]
  | x :: xs, ys, hxs, hys => by
    have hx := hxs x (List.mem_cons_self x xs)
    have ih := takeWhile_run xs ys (fun c hc => hxs c (List.mem_cons_of_mem x hc)) hys
    simp [List.takeWhile_cons, List.dropWhile_cons, hx, ih.1, ih.2]

theorem expectDash_eq_some {l r : List Char} : expectDash l = some r ↔ l = '-' :: r := by
  cases l with
  | nil => simp [expectDash]
  | cons c t =>
    by_cases hc : c = '-'
    · subst hc; simp [expectDash]
    · simp [expectDash, hc, Ne.symm hc]

theorem expectDigitHead_eq_some {l : List Char} {u : Unit} :
    expectDigitHead l = some u ↔ ∃ e t, l = e :: t ∧ isDig e = true := by
  cases l with
  | nil => simp [expectDigitHead]
  | cons e t =>
    by_cases he : isDig e
    · simp [expectDigitHead, he]
    · simp [expectDigitHead, he]

theorem matchAtP_shape {maj minr hash bld : List Char} (w : WfShape maj minr hash bld)
    (rest : List Char) :
    matchAtP (shapeList maj minr hash bld ++ rest) = some (maj, minr, hash) := by
  have hassoc : shapeList maj minr hash bld ++ rest
      = litCLang ++ (maj ++ (litInit ++ (minr ++ ('-' :: (hash ++ ('-' :: (bld ++ rest))))))) := by
    simp [shapeList]
  have h1 := takeWhile_run (p := isDig)
      maj (litInit ++ (minr ++ ('-' :: (hash ++ ('-' :: (bld ++ rest)))))) w.majDig
      (by intro c hc
          have hc' : (some '-' : Option Char) = some c := hc
          injection hc' with h
          subst h; decide)
  have h2 := takeWhile_run (p := isDig)
      minr ('-' :: (hash ++ ('-' :: (bld ++ rest)))) w.minrDig
      (by intro c hc
          have hc' : (some '-' : Option Char) = some c := hc
          injection hc' with h
          subst h; decide)
  have h3 := takeWhile_run (p := isAlnum)
      hash ('-' :: (bld ++ rest)) w.hashAl
      (by intro c hc
          have hc' : (some '-' : Option Char) = some c := hc
          injection hc' with h
          subst h; decide)
  obtain ⟨e, bs, hbld⟩ := List.exists_cons_of_ne_nil w.bldNe
  have he : isDig e = true := w.bldDig e (by rw [hbld]; exact List.mem_cons_self e bs)
  rw [hassoc]
  unfold matchAtP
  rw [dropLit_self, Option.some_bind, h1.1, h1.2, if_neg w.majNe, dropLit_self,
    Option.some_bind, h2.1, h2.2, if_neg w.minrNe]
  rw [show expectDash ('-' :: (hash ++ ('-' :: (bld ++ rest))))
      = some (hash ++ ('-' :: (bld ++ rest))) from rfl]
  rw [Option.some_bind, h3.1, h3.2, if_neg (Nat.not_lt.mpr w.hashLen)]
  rw [show expectDash ('-' :: (bld ++ rest)) = some (bld ++ rest) from rfl, Option.some_bind]
  rw [hbld]
  rw [show expectDigitHead ((e :: bs) ++ rest) = if isDig e then some () else none from rfl]
  rw [if_pos he, Option.some_bind]

theorem matchAtP_sound {s maj minr hash : List Char}
    (h : matchAtP s = some (maj, minr, hash)) :
    ∃ bld rest, WfShape maj minr hash bld ∧ s = shapeList maj minr hash bld ++ rest := by
  unfold matchAtP at h
  rw [Option.bind_eq_some] at h
  obtain ⟨r1, hr1, h⟩ := h
  by_cases e1 : r1.takeWhile isDig = []
  · rw [if_pos e1] at h; exact absurd h (by simp)
  rw [if_neg e1, Option.bind_eq_some] at h
  obtain ⟨r2, hr2, h⟩ := h
  by_cases e2 : r2.takeWhile isDig = []
  · rw [if_pos e2] at h; exact absurd h (by simp)
  rw [if_neg e2, Option.bind_eq_some] at h
  obtain ⟨r3, hr3, h⟩ := h
  by_cases e3 : (r3.takeWhile isAlnum).length < 8
  · rw [if_pos e3] at h; exact absurd h (by simp)
  rw [if_neg e3, Option.bind_eq_some] at h
  obtain ⟨r4, hr4, h⟩ := h
  rw [Option.bind_eq_some] at h
  obtain ⟨u, hu, h⟩ := h
  obtain ⟨e, t, hr4e, he⟩ := expectDigitHead_eq_some.mp hu
  have hmaj : maj = r1.takeWhile isDig := by
    have := h; injection this with h'; injection h' with ha hb; exact ha.symm
  have hrest : minr = r2.takeWhile isDig ∧ hash = r3.takeWhile isAlnum := by
    have := h; injection this with h'; injection h' with ha hb; injection hb with hc hd
    exact ⟨hc.symm, hd.symm⟩
  obtain ⟨hminr, hhash⟩ := hrest
  refine ⟨[e], t, ?_, ?_⟩
  · exact {
      majNe := hmaj ▸ e1
      majDig := fun c hc => List.mem_takeWhile_imp (hmaj ▸ hc)
      minrNe := hminr ▸ e2
      minrDig := fun c hc => List.mem_takeWhile_imp (hminr ▸ hc)
      hashLen := hhash ▸ Nat.not_lt.mp e3
      hashAl := fun c hc => List.mem_takeWhile_imp (hhash ▸ hc)
      bldNe := by simp
      bldDig := by intro c hc; rw [List.mem_singleton] at hc; subst hc; exact he }
  · have hs1 : s = litCLang ++ r1 := dropLit_eq_append hr1
    have hs2 : r1 = maj ++ (r1.dropWhile isDig) := by
      conv_lhs => rw [← List.takeWhile_append_dropWhile (p := isDig) (l := r1)]
      rw [hmaj]
    have hs3 : r1.dropWhile isDig = litInit ++ r2 := dropLit_eq_append hr2
    have hs4 : r2 = minr ++ (r2.dropWhile isDig) := by
      conv_lhs => rw [← List.takeWhile_append_dropWhile (p := isDig) (l := r2)]
      rw [hminr]
    have hs5 : r2.dropWhile isDig = '-' :: r3 := expectDash_eq_some.mp hr3
    have hs6 : r3 = hash ++ (r3.dropWhile isAlnum) := by
      conv_lhs => rw [← List.takeWhile_append_dropWhile (p := isAlnum) (l := r3)]
      rw [hhash]
    have hs7 : r3.dropWhile isAlnum = '-' :: r4 := expectDash_eq_some.mp hr4
    rw [hs1, hs2, hs3, hs4, hs5, hs6, hs7, hr4e]
    simp [shapeList]

theorem matchAtF_eq (s : List Char) : matchAtF s = (matchAtP s).map (fun r => r.2.2) := by
  unfold matchAtP matchAtF
  cases dropLit litCLang s with
  | none => simp
  | some r1 =>
    simp only [Option.some_bind]
    by_cases e1 : r1.takeWhile isDig = []
    · simp [e1]
    rw [if_neg e1, if_neg e1]
    cases dropLit litInit (r1.dropWhile isDig) with
    | none => simp
    | some r2 =>
      simp only [Option.some_bind]
      by_cases e2 : r2.takeWhile isDig = []
      · simp [e2]
      rw [if_neg e2, if_neg e2]
      cases expectDash (r2.dropWhile isDig) with
      | none => simp
      | some r3 =>
        simp only [Option.some_bind]
        by_cases e3 : (r3.takeWhile isAlnum).length < 8
        · simp [e3]
        rw [if_neg e3, if_neg e3]
        cases expectDash (r3.dropWhile isAlnum) with
        | none => simp
        | some r4 =>
          simp only [Option.some_bind]
          cases expectDigitHead r4 with
          | none => simp
          | some u => simp

theorem shapeList_ne_nil (maj minr hash bld : List Char) : shapeList maj minr hash bld ≠ [] := by
  simp [shapeList, litCLang]

theorem matchAtP_of_occurs {t m n h b : List Char} (ho : OccursAt t 0 m n h b) :
    matchAtP t = some (m, n, h) := by
  obtain ⟨w, rest, hr⟩ := ho
  rw [show t = shapeList m n h b ++ rest from by simpa using hr]
  exact matchAtP_shape w rest

theorem hasShapeAt_zero_of_matchAtP {t : List Char} {r} (h : matchAtP t = some r) :
    HasShapeAt t 0 := by
  obtain ⟨m, n, hsh⟩ := r
  obtain ⟨bld, rest, w, hs⟩ := matchAtP_sound h
  exact ⟨m, n, hsh, bld, w, rest, by simpa using hs⟩

theorem searchP_of_occurs :
    ∀ {t : List Char} {i : Nat} {m n h b : List Char}, OccursAt t i m n h b →
      (∀ j, j < i → ¬ HasShapeAt t j) → searchP t = some (m, n, h)
  | [], i, m, n, h, b, ho, _ => by
    obtain ⟨w, rest, hr⟩ := ho
    rw [List.drop_nil] at hr
    exact absurd hr.symm (by simp [shapeList, litCLang])
  | c :: t', i, m, n, h, b, ho, hleft => by
    cases i with
    | zero =>
      have hm : matchAtP (c :: t') = some (m, n, h) := matchAtP_of_occurs ho
      simp [searchP, hm]
    | succ j =>
      have h0 : ¬ HasShapeAt (c :: t') 0 := hleft 0 (Nat.succ_pos j)
      have hm : matchAtP (c :: t') = none := by
        cases hmm : matchAtP (c :: t') with
        | none => rfl
        | some r => exact absurd (hasShapeAt_zero_of_matchAtP hmm) h0
      have ho' : OccursAt t' j m n h b := by
        obtain ⟨w, rest, hr⟩ := ho
        exact ⟨w, rest, hr⟩
      have ih := searchP_of_occurs (t := t') (i := j) ho'
        (fun j' hj' hs => hleft (j' + 1) (Nat.succ_lt_succ hj') hs)
      simp [searchP, hm, ih]

theorem searchP_none_no_shape :
    ∀ {t : List Char}, searchP t = none → ∀ i, ¬ HasShapeAt t i
  | [], _, i, hi => by
    obtain ⟨m, n, h, b, w, rest, hr⟩ := hi
    rw [List.drop_nil] at hr
    exact absurd hr.symm (by simp [shapeList, litCLang])
  | c :: t', hnone, i, hi => by
    have hm : matchAtP (c :: t') = none := by
      cases hmm : matchAtP (c :: t') with
      | none => rfl
      | some r => simp [searchP, hmm] at hnone
    have ht' : searchP t' = none := by simpa [searchP, hm] using hnone
    cases i with
    | zero =>
      obtain ⟨m, n, h, b, ho⟩ := hi
      rw [matchAtP_of_occurs ho] at hm
      exact Option.noConfusion hm
    | succ j =>
      have hi' : HasShapeAt t' j := by
        obtain ⟨m, n, h, b, w, rest, hr⟩ := hi
        exact ⟨m, n, h, b, w, rest, hr⟩
      exact searchP_none_no_shape ht' j hi'

theorem searchP_some_has :
    ∀ {t : List Char} {r}, searchP t = some r → ∃ i, HasShapeAt t i
  | [], r, h => by simp [searchP] at h
  | c :: t', r, h => by
    cases hmm : matchAtP (c :: t') with
    | some x => exact ⟨0, hasShapeAt_zero_of_matchAtP hmm⟩
    | none =>
      rw [searchP, hmm] at h
      obtain ⟨i, hi⟩ := searchP_some_has h
      refine ⟨i + 1, ?_⟩
      obtain ⟨m, n, hh, b, w, rest, hr⟩ := hi
      exact ⟨m, n, hh, b, w, rest, hr⟩

theorem searchF_eq : ∀ t : List Char, searchF t = (searchP t).map (fun r => r.2.2)
  | [] => rfl
  | c :: t' => by
    rw [searchF, searchP, matchAtF_eq]
    cases matchAtP (c :: t') with
    | none => simpa using searchF_eq t'
    | some r => simp

/-- C5 (amended): for every manifest text, if a well-formed identifier shape
`clang-llvmorg-<major>-init-<minor>-<hash>-<build>` (alphanumeric hash of
length at least 8) occurs at position `i` and no such shape occurs at any
earlier position, the extractor returns exactly that leftmost occurrence's
hash; and for every text in which no such shape occurs anywhere (so neither
the primary nor the fallback pattern matches), it fails with
`ManifestParseError`. -/
theorem get_llvm_revision_leftmost_spec :
    (∀ (t : List Char) (i : Nat) (maj minr hash bld : List Char),
        OccursAt t i maj minr hash bld → (∀ j, j < i → ¬ HasShapeAt t j) →
        get_llvm_revision t = Except.ok hash) ∧
    (∀ t : List Char, (∀ i, ¬ HasShapeAt t i) →
        get_llvm_revision t = Except.error Err.manifestParseError) := by
  constructor
  · intro t i maj minr hash bld ho hleft
    unfold get_llvm_revision
    rw [searchP_of_occurs ho hleft]
  · intro t hnone
    have hp : searchP t = none := by
      cases hS : searchP t with
      | none => rfl
      | some r =>
        obtain ⟨i, hi⟩ := searchP_some_has hS
        exact absurd hi (hnone i)
    unfold get_llvm_revision
    rw [hp, searchF_eq, hp]
    rfl

/-- Witness for C5: the scenario text of the spec yields exactly the hash
`abcdef1234567890` (the shape occurs at position 0, trivially leftmost). -/
theorem get_llvm_revision_leftmost_spec_witness :
    get_llvm_revision "clang-llvmorg-19-init-1234-abcdef1234567890-1".data
      = Except.ok "abcdef1234567890".data :=
  get_llvm_revision_leftmost_spec.1 _ 0 "19".data "1234".data "abcdef1234567890".data "1".data
    ⟨⟨by decide, by decide, by decide, by decide, by decide, by decide, by decide, by decide⟩,
      [], by decide⟩
    (fun j hj => absurd hj (Nat.not_lt_zero j))

/-- C5 counterexample: a text containing a well-formed identifier shape whose
hash is `bbbbbbbb` (at position 33) for which the extractor nevertheless
returns `aaaaaaaa` (the hash of an earlier occurrence) — so "the extractor
returns exactly that hash token" fails for an arbitrary occurrence, and
holds only for the leftmost one. -/
theorem revision_two_shapes_cex :
    OccursAt "clang-llvmorg-1-init-2-aaaaaaaa-3clang-llvmorg-1-init-2-bbbbbbbb-3".data 33
      "1".data "2".data "bbbbbbbb".data "3".data ∧
    get_llvm_revision "clang-llvmorg-1-init-2-aaaaaaaa-3clang-llvmorg-1-init-2-bbbbbbbb-3".data
      = Except.ok "aaaaaaaa".data ∧
    "aaaaaaaa".data ≠ "bbbbbbbb".data := by
  refine ⟨⟨⟨by decide, by decide, by decide, by decide, by decide, by decide, by decide,
    by decide⟩, [], by decide⟩, ?_, by decide⟩
  rfl

/-- C10: the fallback pattern (line 88) matches exactly when the primary
pattern (line 80) matches and captures the same hash token, so the fallback
branch is unreachable and the two-pattern extractor is extensionally equal
to the single-pattern extractor. -/
theorem fallback_equiv_spec :
    (∀ t : List Char, searchF t = (searchP t).map (fun r => r.2.2)) ∧
    (∀ t : List Char, get_llvm_revision t = get_llvm_revision_single t) := by
  refine ⟨searchF_eq, fun t => ?_⟩
  unfold get_llvm_revision get_llvm_revision_single
  rw [searchF_eq]
  cases searchP t with
  | none => rfl
  | some r => obtain ⟨a, b, c⟩ := r; rfl

/-! ### Locator, orchestrator, stamp and verification claims -/

/-- C7: the locator prefers the bootstrap install (when it and its `bin`
subdirectory exist) over the release build; when only the release build
(with its `bin` subdirectory) is available it returns that; when neither
candidate is available it fails with `ToolchainNotFoundError`. -/
theorem verify_toolchain_order_spec :
    ∀ fs : FsSet,
      ((fs.existsPath bootstrapDir && fs.existsPath (bootstrapDir ++ "/bin")) = true →
        verify_toolchain fs = Except.ok bootstrapDir) ∧
      ((fs.existsPath bootstrapDir && fs.existsPath (bootstrapDir ++ "/bin")) = false →
        (fs.existsPath llvmReleaseDir && fs.existsPath (llvmReleaseDir ++ "/bin")) = true →
        verify_toolchain fs = Except.ok llvmReleaseDir) ∧
      ((fs.existsPath bootstrapDir && fs.existsPath (bootstrapDir ++ "/bin")) = false →
        (fs.existsPath llvmReleaseDir && fs.existsPath (llvmReleaseDir ++ "/bin")) = false →
        verify_toolchain fs = Except.error Err.toolchainNotFoundError) := by
  intro fs
  refine ⟨fun h => ?_, fun h1 h2 => ?_, fun h1 h2 => ?_⟩ <;> simp [verify_toolchain, *]

/-- Witness for C7: a root with both candidate directories resolves to the
bootstrap directory. -/
theorem verify_toolchain_order_spec_witness :
    verify_toolchain ⟨["third_party/llvm-bootstrap-install",
      "third_party/llvm-bootstrap-install/bin", "third_party/llvm-build/Release+Asserts",
      "third_party/llvm-build/Release+Asserts/bin"]⟩ = Except.ok bootstrapDir :=
  (verify_toolchain_order_spec _).1 (by decide)

/-- C4 counterexample: a root whose bootstrap directory and `bin`
subdirectory exist but which contains no `bin/clang` (nor any other
executable) is accepted by the locator — it returns the directory instead
of failing with `MissingExecutableError` naming the missing tool. -/
theorem verify_no_exec_check_cex :
    verify_toolchain ⟨["third_party/llvm-bootstrap-install",
      "third_party/llvm-bootstrap-install/bin"]⟩ = Except.ok bootstrapDir ∧
    FsSet.existsPath ⟨["third_party/llvm-bootstrap-install",
      "third_party/llvm-bootstrap-install/bin"]⟩
      "third_party/llvm-bootstrap-install/bin/clang" = false := by
  exact ⟨rfl, by decide⟩

/-- C4 (amended): after locating, `verify_toolchain` performs no
executable-level verification at all: it never produces
`MissingExecutableError` for any tool, and accepts an installation as soon
as the directory and its `bin` subdirectory exist, whether or not any
compiler or linker executable is present. -/
theorem verify_toolchain_no_exec_spec :
    ∀ (fs : FsSet) (tool : String),
      verify_toolchain fs ≠ Except.error (Err.missingExecutableError tool) ∧
      ((fs.existsPath bootstrapDir && fs.existsPath (bootstrapDir ++ "/bin")) = true →
        verify_toolchain fs = Except.ok bootstrapDir) := by
  intro fs tool
  constructor
  · unfold verify_toolchain
    split
    · simp
    · split <;> simp
  · intro h; simp [verify_toolchain, h]

/-- Witness for C4 (amended): the executable-free root is accepted. -/
theorem verify_toolchain_no_exec_spec_witness :
    verify_toolchain ⟨["third_party/llvm-bootstrap-install",
      "third_party/llvm-bootstrap-install/bin"]⟩ = Except.ok bootstrapDir :=
  (verify_toolchain_no_exec_spec _ "clang").2 (by decide)

/-- C3 counterexample: a run whose external build subprocess exits non-zero
while a bootstrap installation is perfectly resolvable (the locator would
return it) still ends fatally with the build error — the pipeline never
reaches the locator, so there is no recoverable-partial-success path. -/
theorem build_failure_fatal_cex :
    build_toolchain ⟨"clang-llvmorg-19-init-1234-abcdef1234567890-1".data, 1,
      ⟨["third_party/llvm-bootstrap-install", "third_party/llvm-bootstrap-install/bin"]⟩⟩
      = Except.error Err.externalBuildError ∧
    verify_toolchain ⟨["third_party/llvm-bootstrap-install",
      "third_party/llvm-bootstrap-install/bin"]⟩ = Except.ok bootstrapDir :=
  ⟨rfl, rfl⟩

/-- C3 (amended): a non-zero exit of the external build subprocess is always
fatal to the pipeline (after a successful revision extraction), regardless
of whether a bootstrap installation could be located: `build_llvm` turns the
`CalledProcessError` into `sys.exit(1)` unconditionally and the locate and
package stages are never reached. -/
theorem build_failure_always_fatal :
    ∀ env : BuildEnv, env.buildExit ≠ 0 →
      (∃ r, get_llvm_revision env.deps = Except.ok r) →
      build_toolchain env = Except.error Err.externalBuildError := by
  intro env hne hr
  obtain ⟨r, hr⟩ := hr
  simp [build_toolchain, hr, build_llvm, hne]

/-- Witness for C3 (amended). -/
theorem build_failure_always_fatal_witness :
    build_toolchain ⟨"clang-llvmorg-19-init-1234-abcdef1234567890-1".data, 1, ⟨[]⟩⟩
      = Except.error Err.externalBuildError :=
  build_failure_always_fatal _ (by decide) ⟨"abcdef1234567890".data, rfl⟩

/-- C6: the on-disk build stamp is compared against the expected package
version before any staging work; on a mismatch, packaging fails with the
stamp-mismatch error and the staging tree is untouched (empty) and no
archive value is produced. -/
theorem package_stamp_spec :
    ∀ (inp : PkgInput) (want : List String), inp.releaseDirExists = true →
      inp.stamp ≠ inp.packageVersion →
      package_toolchain inp want
        = (Except.error (Err.stampMismatchError inp.stamp inp.packageVersion), ⟨[]⟩) := by
  intro inp want h1 h2
  simp [package_toolchain, h1, h2]

/-- Witness for C6. -/
theorem package_stamp_spec_witness :
    package_toolchain ⟨true, "llvmorg-x", "llvmorg-y", "19", ⟨[]⟩⟩ []
      = (Except.error (Err.stampMismatchError "llvmorg-x" "llvmorg-y"), ⟨[]⟩) :=
  package_stamp_spec _ _ rfl (by decide)

/-- C2: with the stamp matching, if any literal (no `*`) rule is missing
from the release tree, packaging fails with the verification error carrying
the complete miss list and nothing is ever copied (the staging tree is
empty); and the miss list contains exactly the wildcard-free rules whose
paths do not exist — in particular a glob rule (even one matching zero
files) is never in it. -/
theorem package_verification_spec :
    ∀ (inp : PkgInput) (want : List String), inp.releaseDirExists = true →
      inp.stamp = inp.packageVersion →
      missingLiterals want inp.tree ≠ [] →
      package_toolchain inp want
          = (Except.error (Err.manifestVerificationError (missingLiterals want inp.tree)), ⟨[]⟩) ∧
      ∀ w, w ∈ missingLiterals want inp.tree ↔
          w ∈ want ∧ hasWildcard w = false ∧ treeHas inp.tree (splitPath w) = false := by
  intro inp want h1 h2 h3
  constructor
  · simp [package_toolchain, h1, h2, h3]
  · intro w
    simp [missingLiterals, List.mem_filter, Bool.and_eq_true, Bool.not_eq_true', and_assoc]

/-- Witness for C2: a manifest with one missing literal rule and one glob
rule fails with exactly that literal enumerated. -/
theorem package_verification_spec_witness :
    package_toolchain ⟨true, "v", "v", "19", ⟨[]⟩⟩ ["bin/clang", "lib/clang/19/include/*"]
      = (Except.error (Err.manifestVerificationError
          (missingLiterals ["bin/clang", "lib/clang/19/include/*"] ⟨[]⟩)), ⟨[]⟩) :=
  (package_verification_spec _ _ rfl rfl (by decide)).1

/-- C1 (code bug): on a synthetic release tree containing exactly the
mandatory (literal) files of the Linux manifest, with a matching stamp,
packaging passes verification but then crashes: the staging loop
`for root, dirs, files in LLVM_RELEASE_DIR.rglob(..)` (line 362) raises
`TypeError` while tuple-unpacking the first `Path` yielded by `rglob`, so
no file is copied and no archive is produced — the claimed copy/round-trip
behaviour never happens. -/
theorem package_staging_type_error :
    package_toolchain
      ⟨true, "v1", "v1", "19",
        ⟨((wantLinux "cr_build_revision" "19").filter (fun w => !hasWildcard w)).map
          (fun w => (splitPath w, Node.file [] 0))⟩⟩
      (wantLinux "cr_build_revision" "19")
      = (Except.error Err.typeError, ⟨[]⟩) := by
  rfl

/-! ### Archive ordering (C9) -/

theorem strLtB_irrefl : ∀ x : List Char, strLtB x x = false
  | [] => rfl
  | c :: cs => by simp [strLtB, lt_irrefl, strLtB_irrefl cs]

theorem strLtB_trans : ∀ {x y z : List Char},
    strLtB x y = true → strLtB y z = true → strLtB x z = true
  | [], [], _, h, _ => by simp [strLtB] at h
  | [], _ :: _, [], _, h => by simp [strLtB] at h
  | [], _ :: _, _ :: _, _, _ => rfl
  | _ :: _, [], _, h, _ => by simp [strLtB] at h
  | _ :: _, _ :: _, [], _, h => by simp [strLtB] at h
  | a :: as, b :: bs, c :: cs, h1, h2 => by
    by_cases hab : a < b
    · by_cases hbc : b < c
      · simp [strLtB, lt_trans hab hbc]
      · by_cases hcb : c < b
        · rw [strLtB, if_neg hbc, if_pos hcb] at h2
          exact absurd h2 (by simp)
        · have hbc' : b = c := le_antisymm (not_lt.mp hcb) (not_lt.mp hbc)
          subst hbc'
          simp [strLtB, hab]
    · by_cases hba : b < a
      · rw [strLtB, if_neg hab, if_pos hba] at h1
        exact absurd h1 (by simp)
      · have hab' : a = b := le_antisymm (not_lt.mp hba) (not_lt.mp hab)
        subst hab'
        rw [strLtB, if_neg hab, if_neg hba] at h1
        by_cases hac : a < c
        · simp [strLtB, hac]
        · by_cases hca : c < a
          · rw [strLtB, if_neg hac, if_pos hca] at h2
            exact absurd h2 (by simp)
          · have hac' : a = c := le_antisymm (not_lt.mp hca) (not_lt.mp hac)
            subst hac'
            rw [strLtB, if_neg hac, if_neg hca] at h2 ⊢
            exact strLtB_trans h1 h2

theorem strLtB_eq_of_not : ∀ {x y : List Char},
    strLtB x y = false → strLtB y x = false → x = y
  | [], [], _, _ => rfl
  | [], _ :: _, h, _ => by simp [strLtB] at h
  | _ :: _, [], _, h => by simp [strLtB] at h
  | a :: as, b :: bs, h1, h2 => by
    by_cases hab : a < b
    · rw [strLtB, if_pos hab] at h1
      exact absurd h1 (by simp)
    · by_cases hba : b < a
      · rw [strLtB, if_pos hba] at h2
        exact absurd h2 (by simp)
      · have hab' : a = b := le_antisymm (not_lt.mp hba) (not_lt.mp hab)
        subst hab'
        rw [strLtB, if_neg hab, if_neg hba] at h1 h2
        rw [strLtB_eq_of_not h1 h2]

theorem pathLeB_total : ∀ p q : RelPath, pathLeB p q = true ∨ pathLeB q p = true
  | [], _ => Or.inl rfl
  | _ :: _, [] => Or.inr rfl
  | a :: as, b :: bs => by
    by_cases hab : a = b
    · subst hab
      rcases pathLeB_total as bs with h | h
      · exact Or.inl (by simp [pathLeB, h])
      · exact Or.inr (by simp [pathLeB, h])
    · by_cases hlt : strLtB a.data b.data
      · exact Or.inl (by simp [pathLeB, hab, hlt])
      · have hgt : strLtB b.data a.data = true := by
          by_cases h2 : strLtB b.data a.data
          · exact h2
          · exact absurd (String.ext (strLtB_eq_of_not (by simpa using hlt) (by simpa using h2)))
              hab
        exact Or.inr (by simp [pathLeB, Ne.symm hab, hgt])

theorem pathLeB_trans : ∀ {p q r : RelPath},
    pathLeB p q = true → pathLeB q r = true → pathLeB p r = true
  | [], _, _, _, _ => rfl
  | _ :: _, [], _, h, _ => by simp [pathLeB] at h
  | _ :: _, _ :: _, [], _, h => by simp [pathLeB] at h
  | a :: as, b :: bs, c :: cs, h1, h2 => by
    by_cases hab : a = b
    · subst hab
      rw [pathLeB, if_pos rfl] at h1
      by_cases hac : a = c
      · subst hac
        rw [pathLeB, if_pos rfl] at h2 ⊢
        exact pathLeB_trans h1 h2
      · rw [pathLeB, if_neg hac] at h2 ⊢
        exact h2
    · rw [pathLeB, if_neg hab] at h1
      by_cases hbc : b = c
      · subst hbc
        rw [pathLeB, if_neg hab]
        exact h1
      · rw [pathLeB, if_neg hbc] at h2
        have hne : a ≠ c := by
          intro he
          subst he
          have h3 := strLtB_trans h1 h2
          rw [strLtB_irrefl] at h3
          exact Bool.noConfusion h3
        rw [pathLeB, if_neg hne]
        exact strLtB_trans h1 h2

theorem pathLeB_cons {x : String} {p q : RelPath} (h : pathLeB p q = true) :
    pathLeB (x :: p) (x :: q) = true := by
  rw [pathLeB, if_pos rfl]
  exact h

/-- C9: archive creation is deterministic.  The members produced from a
staging tree are in lexicographically sorted relative-path order (pairwise
`pathLeB` on the arcnames), and archiving the same staged input tree twice
produces byte-identical archives (the archive bytes are a pure function of
the tree: no clock, ordering nondeterminism or randomness enters). -/
theorem archive_spec :
    ∀ (pn : String) (pt ptB : Tree),
      List.Pairwise (fun a b : TarMember => pathLeB a.arcname b.arcname = true)
        (archiveMembers pn pt) ∧
      (pt = ptB → tarBytes (archiveMembers pn pt) = tarBytes (archiveMembers pn ptB)) := by
  intro pn pt ptB
  constructor
  · have hs := @List.sorted_mergeSort (RelPath × Node)
      (fun a b => pathLeB a.1 b.1)
      (fun a b c hab hbc => pathLeB_trans hab hbc)
      (fun a b => by rcases pathLeB_total a.1 b.1 with h | h <;> simp [h])
      (pt.entries.filter (fun e => match e.2 with | Node.dir => false | _ => true))
    unfold archiveMembers
    exact List.Pairwise.map _ (fun a b hab => pathLeB_cons hab) hs
  · intro h
    rw [h]

/-- Witness for C9: two runs on one concrete staged tree agree byte for
byte. -/
theorem archive_spec_witness :
    tarBytes (archiveMembers "clang-v" ⟨[(["bin", "clang"], Node.file [0] 5)]⟩)
      = tarBytes (archiveMembers "clang-v" ⟨[(["bin", "clang"], Node.file [0] 5)]⟩) :=
  (archive_spec "clang-v" _ _).2 rfl

/-! ### The symlink phase (C8) -/

theorem treeHas_append_single (t : Tree) (q : RelPath) (n : Node) (p : RelPath) :
    treeHas ⟨t.entries ++ [(q, n)]⟩ p = (treeHas t p || isLead p q) := by
  simp [treeHas, List.any_append]

theorem symlinkTo_entries (t : Tree) (q : RelPath) (tg : String) :
    (symlinkTo t q tg).1 = t ∨
    (symlinkTo t q tg).1 = ⟨t.entries ++ [(q, Node.symlink tg)]⟩ := by
  unfold symlinkTo
  split
  · exact Or.inl rfl
  · split
    · exact Or.inl rfl
    · exact Or.inr rfl

theorem treeHas_symlinkTo_false {t : Tree} {p q : RelPath} {tg : String}
    (hpq : isLead p q = false) (h : treeHas t p = false) :
    treeHas (symlinkTo t q tg).1 p = false := by
  rcases symlinkTo_entries t q tg with he | he <;> rw [he]
  · exact h
  · rw [treeHas_append_single, h, hpq]
    rfl

theorem treeHas_symlinkTo_true {t : Tree} {p q : RelPath} {tg : String}
    (h : treeHas t p = true) : treeHas (symlinkTo t q tg).1 p = true := by
  rcases symlinkTo_entries t q tg with he | he <;> rw [he]
  · exact h
  · rw [treeHas_append_single, h]
    rfl

theorem mem_symlinkTo {t : Tree} {q : RelPath} {tg : String} {x : RelPath × Node}
    (h : x ∈ t.entries) : x ∈ (symlinkTo t q tg).1.entries := by
  rcases symlinkTo_entries t q tg with he | he <;> rw [he]
  · exact h
  · exact List.mem_append_left _ h

theorem mem_symlinkTo_rev {t : Tree} {q : RelPath} {tg : String} {p : RelPath} {n : Node}
    (hne : p ≠ q) (h : (p, n) ∈ (symlinkTo t q tg).1.entries) : (p, n) ∈ t.entries := by
  rcases symlinkTo_entries t q tg with he | he <;> rw [he] at h
  · exact h
  · rcases List.mem_append.mp h with h' | h'
    · exact h'
    · rw [List.mem_singleton] at h'
      exact absurd (congrArg Prod.fst h') hne

theorem symlinkTo_no_fnf {t : Tree} {q : RelPath} {tg : String}
    (h : treeHas t q.dropLast = true) :
    (symlinkTo t q tg).2 ≠ some OsErr.fileNotFound := by
  unfold symlinkTo
  split
  · simp
  · split
    · rename_i hcond
      rw [h] at hcond
      exact absurd hcond (by simp)
    · simp

theorem andThen_pres {P : Tree → Prop} {r : Tree × Option OsErr} {f : Tree → Tree × Option OsErr}
    (h1 : P r.1) (h2 : ∀ u, P u → P (f u).1) : P (andThen r f).1 := by
  rcases r with ⟨u, e⟩
  cases e with
  | none => exact h2 u h1
  | some e => exact h1

theorem andThen_ok {P : Tree → Prop} {r : Tree × Option OsErr} {f : Tree → Tree × Option OsErr}
    (h1 : P r.1 ∧ r.2 ≠ some OsErr.fileNotFound)
    (h2 : ∀ u, P u → P (f u).1 ∧ (f u).2 ≠ some OsErr.fileNotFound) :
    P (andThen r f).1 ∧ (andThen r f).2 ≠ some OsErr.fileNotFound := by
  rcases r with ⟨u, e⟩
  cases e with
  | none => exact h2 u h1.1
  | some e => exact h1

theorem tryFE_fst : ∀ r : Tree × Option OsErr, (tryFE r).1 = r.1 := by
  intro r
  rcases r with ⟨u, e⟩
  cases e with
  | none => rfl
  | some o => cases o <;> rfl

/-- Generic invariant walk through the bin-alias block: `P` is preserved by
the unguarded alias creations and by the readelf creation, and either `P`
forces the `bin/lld` guard to be false (so the lld group is skipped) or `P`
is also preserved by the lld-group creations. -/
theorem binAlias_inv {P : Tree → Prop}
    (hstep : ∀ (u : Tree) (x tg : String),
        (x = "clang++" ∨ x = "clang-cl") →
        P u → P (symlinkTo u ["bin", x] tg).1)
    (hlld : (∀ u, P u → treeHas u ["bin", "lld"] = false) ∨
        (∀ (u : Tree) (x tg : String),
          (x = "ld.lld" ∨ x = "ld64.lld" ∨ x = "lld-link" ∨ x = "wasm-ld") →
          P u → P (symlinkTo u ["bin", x] tg).1))
    (hrdo : (∀ u, P u → treeHas u ["bin", "llvm-readobj"] = false) ∨
        (∀ (u : Tree) (tg : String),
          P u → P (symlinkTo u ["bin", "llvm-readelf"] tg).1))
    {t : Tree} (h : P t) : P (binAliasBlock t).1 := by
  unfold binAliasBlock
  refine andThen_pres (hstep t "clang++" "clang" (by simp) h) (fun u hu => ?_)
  refine andThen_pres (hstep u "clang-cl" "clang" (by simp) hu) (fun v hv => ?_)
  refine andThen_pres ?_ (fun w hw => ?_)
  · rcases hlld with hlld | hlld
    · rw [if_neg (by simp [hlld v hv])]
      exact hv
    · by_cases hg : treeHas v ["bin", "lld"]
      · rw [if_pos hg]
        refine andThen_pres (hlld v "ld.lld" "lld" (by simp) hv) (fun a ha => ?_)
        refine andThen_pres (hlld a "ld64.lld" "lld" (by simp) ha) (fun b hb => ?_)
        refine andThen_pres (hlld b "lld-link" "lld" (by simp) hb) (fun c hc => ?_)
        exact hlld c "wasm-ld" "lld" (by simp) hc
      · rw [if_neg hg]
        exact hv
  · rcases hrdo with hrdo | hrdo
    · rw [if_neg (by simp [hrdo w hw])]
      exact hw
    · by_cases hg : treeHas w ["bin", "llvm-readobj"]
      · rw [if_pos hg]
        exact hrdo w "llvm-readobj" hw
      · rw [if_neg hg]
        exact hw

/-- Generic invariant walk through the objcopy-alias block. -/
theorem objcopy_inv {P : Tree → Prop}
    (hobj : (∀ u, P u → treeHas u ["bin", "llvm-objcopy"] = false) ∨
        (∀ (u : Tree) (x tg : String),
          (x = "llvm-strip" ∨ x = "llvm-install-name-tool") →
          P u → P (symlinkTo u ["bin", x] tg).1))
    {t : Tree} (h : P t) : P (objcopyAliasBlock t).1 := by
  unfold objcopyAliasBlock
  rcases hobj with hobj | hobj
  · rw [if_neg (by simp [hobj t h])]
    exact h
  · by_cases hg : treeHas t ["bin", "llvm-objcopy"]
    · rw [if_pos hg]
      refine andThen_pres (hobj t "llvm-strip" "llvm-objcopy" (by simp) h) (fun u hu => ?_)
      exact hobj u "llvm-install-name-tool" "llvm-objcopy" (by simp) hu
    · rw [if_neg hg]
      exact h

/-- Generic invariant walk through the cros-triple loop. -/
theorem crosFold_inv {rv : String} {P : Tree → Prop} :
    ∀ (prs : List (String × String)) (t : Tree),
      (∀ (u : Tree) (pr : String × String), pr ∈ prs → P u → P (crosStep rv u pr)) →
      P t → P (prs.foldl (crosStep rv) t)
  | [], _, _, h => h
  | pr :: prs, t, hstep, h => by
    rw [List.foldl_cons]
    exact crosFold_inv prs _ (fun u q hq hu => hstep u q (List.mem_cons_of_mem pr hq) hu)
      (hstep t pr (List.mem_cons_self pr prs) h)

theorem crosStep_entries (rv : String) (t : Tree) (pr : String × String) :
    crosStep rv t pr = t ∨
    crosStep rv t pr = ⟨t.entries ++ [(crosNewPath rv pr,
        Node.symlink (pr.1 ++ "-unknown-linux-" ++ pr.2))]⟩ := by
  unfold crosStep
  split
  · exact Or.inr rfl
  · exact Or.inl rfl

theorem isLead_cons_ne {a b : String} (h : (a == b) = false) (as bs : List String) :
    isLead (a :: as) (b :: bs) = false := by
  rw [isLead, h]
  rfl

theorem isLead_cons_same (a : String) (as bs : List String) :
    isLead (a :: as) (a :: bs) = isLead as bs := by
  rw [isLead, beq_self_eq_true]
  rfl

theorem guardInv_symlinkTo {t0 u : Tree} {gp : RelPath} {aps : List RelPath}
    {q : RelPath} {tg : String} (hlead : isLead gp q = false) (hq : q ∉ aps)
    (h : GuardInv t0 gp aps u) : GuardInv t0 gp aps (symlinkTo u q tg).1 := by
  refine ⟨treeHas_symlinkTo_false hlead h.1, fun p hp n hm => ?_⟩
  exact h.2 p hp n (mem_symlinkTo_rev (fun he => hq (by rw [← he]; exact hp)) hm)

theorem guardInv_crosStep {t0 u : Tree} {gp : RelPath} {aps : List RelPath}
    {rv : String} {pr : String × String}
    (hpr : (isLead gp (crosNewPath rv pr) = false ∧ crosNewPath rv pr ∉ aps) ∨
        gp = crosOldPath rv pr)
    (h : GuardInv t0 gp aps u) : GuardInv t0 gp aps (crosStep rv u pr) := by
  unfold crosStep
  split
  · rename_i hg
    rcases hpr with ⟨hl, hn⟩ | hgp
    · refine ⟨?_, fun p hp n hm => ?_⟩
      · rw [treeHas_append_single, h.1, hl]
        rfl
      · rcases List.mem_append.mp hm with h' | h'
        · exact h.2 p hp n h'
        · rw [List.mem_singleton] at h'
          have he : p = crosNewPath rv pr := congrArg Prod.fst h'
          exact absurd hp (by rw [he]; exact hn)
    · rw [Bool.and_eq_true] at hg
      rw [hgp] at h
      rw [h.1] at hg
      exact absurd hg.1 (by simp)
  · exact h

theorem symlinkTo_bin_ok {u : Tree} {x tg : String} (hu : treeHas u ["bin"] = true) :
    treeHas (symlinkTo u ["bin", x] tg).1 ["bin"] = true ∧
    (symlinkTo u ["bin", x] tg).2 ≠ some OsErr.fileNotFound := by
  refine ⟨treeHas_symlinkTo_true hu, symlinkTo_no_fnf ?_⟩
  exact hu

theorem binAlias_ok {t : Tree} (h : treeHas t ["bin"] = true) :
    treeHas (binAliasBlock t).1 ["bin"] = true ∧
    (binAliasBlock t).2 ≠ some OsErr.fileNotFound := by
  unfold binAliasBlock
  refine andThen_ok (P := fun u => treeHas u ["bin"] = true) (symlinkTo_bin_ok h) (fun u hu => ?_)
  refine andThen_ok (P := fun u => treeHas u ["bin"] = true) (symlinkTo_bin_ok hu) (fun v hv => ?_)
  refine andThen_ok (P := fun u => treeHas u ["bin"] = true) ?_ (fun w hw => ?_)
  · by_cases hg : treeHas v ["bin", "lld"]
    · rw [if_pos hg]
      refine andThen_ok (P := fun u => treeHas u ["bin"] = true) (symlinkTo_bin_ok hv)
        (fun a ha => ?_)
      refine andThen_ok (P := fun u => treeHas u ["bin"] = true) (symlinkTo_bin_ok ha)
        (fun b hb => ?_)
      refine andThen_ok (P := fun u => treeHas u ["bin"] = true) (symlinkTo_bin_ok hb)
        (fun c hc => ?_)
      exact symlinkTo_bin_ok hc
    · rw [if_neg hg]
      exact ⟨hv, by simp⟩
  · by_cases hg : treeHas w ["bin", "llvm-readobj"]
    · rw [if_pos hg]
      exact symlinkTo_bin_ok hw
    · rw [if_neg hg]
      exact ⟨hw, by simp⟩

theorem objcopy_ok {t : Tree} (h : treeHas t ["bin"] = true) :
    treeHas (objcopyAliasBlock t).1 ["bin"] = true ∧
    (objcopyAliasBlock t).2 ≠ some OsErr.fileNotFound := by
  unfold objcopyAliasBlock
  by_cases hg : treeHas t ["bin", "llvm-objcopy"]
  · rw [if_pos hg]
    refine andThen_ok (P := fun u => treeHas u ["bin"] = true) (symlinkTo_bin_ok h) (fun u hu => ?_)
    exact symlinkTo_bin_ok hu
  · rw [if_neg hg]
    exact ⟨h, by simp⟩

theorem symlinkPhase_ok_eq {rv : String} {t t2 : Tree}
    (h : symlinkPhase rv t = Except.ok t2) :
    t2 = crosPhase rv (objcopyAliasBlock (binAliasBlock t).1).1 := by
  unfold symlinkPhase at h
  generalize hB : binAliasBlock t = rB at h ⊢
  rcases rB with ⟨t1, e1⟩
  show t2 = crosPhase rv (objcopyAliasBlock t1).1
  have next : (match tryFE (objcopyAliasBlock t1) with
      | (_, some _) => (Except.error Err.fileNotFoundError : Except Err Tree)
      | (u, none) => Except.ok (crosPhase rv u)) = Except.ok t2 →
      t2 = crosPhase rv (objcopyAliasBlock t1).1 := by
    intro h2
    generalize hO : objcopyAliasBlock t1 = rO at h2 ⊢
    rcases rO with ⟨t3, e2⟩
    show t2 = crosPhase rv t3
    cases e2 with
    | none =>
      simp [tryFE] at h2
      exact h2.symm
    | some o2 =>
      cases o2 with
      | fileExists =>
        simp [tryFE] at h2
        exact h2.symm
      | fileNotFound => simp [tryFE] at h2
  cases e1 with
  | some o1 =>
    cases o1 with
    | fileNotFound => simp [tryFE] at h
    | fileExists =>
      simp only [tryFE] at h
      exact next h
  | none =>
    simp only [tryFE] at h
    exact next h

theorem symlinkPhase_ok_of_bin (rv : String) {t : Tree} (h : treeHas t ["bin"] = true) :
    symlinkPhase rv t
      = Except.ok (crosPhase rv (objcopyAliasBlock (binAliasBlock t).1).1) := by
  have hb := binAlias_ok h
  have ho := objcopy_ok hb.1
  cases hres : symlinkPhase rv t with
  | ok t2 => rw [symlinkPhase_ok_eq hres]
  | error e =>
    exfalso
    unfold symlinkPhase at hres
    generalize hB : binAliasBlock t = rB at hres hb ho
    rcases rB with ⟨t1, e1⟩
    have ho2 : treeHas (objcopyAliasBlock t1).1 ["bin"] = true ∧
        (objcopyAliasBlock t1).2 ≠ some OsErr.fileNotFound := ho
    cases e1 with
    | some o1 =>
      cases o1 with
      | fileNotFound => exact hb.2 rfl
      | fileExists =>
        simp only [tryFE] at hres
        generalize hO : objcopyAliasBlock t1 = rO at hres ho2
        rcases rO with ⟨t3, e2⟩
        cases e2 with
        | none => simp [tryFE] at hres
        | some o2 =>
          cases o2 with
          | fileExists => simp [tryFE] at hres
          | fileNotFound => exact ho2.2 rfl
    | none =>
      simp only [tryFE] at hres
      generalize hO : objcopyAliasBlock t1 = rO at hres ho2
      rcases rO with ⟨t3, e2⟩
      cases e2 with
      | none => simp [tryFE] at hres
      | some o2 =>
        cases o2 with
        | fileExists => simp [tryFE] at hres
        | fileNotFound => exact ho2.2 rfl

theorem mem_crosStep {rv : String} {u : Tree} {pr : String × String} {x : RelPath × Node}
    (h : x ∈ u.entries) : x ∈ (crosStep rv u pr).entries := by
  rcases crosStep_entries rv u pr with he | he <;> rw [he]
  · exact h
  · exact List.mem_append_left _ h

theorem mem_post_blocks {rv : String} {t1 : Tree} {x : RelPath × Node}
    (h : x ∈ t1.entries) :
    x ∈ (crosPhase rv (objcopyAliasBlock t1).1).entries := by
  have h2 : x ∈ (objcopyAliasBlock t1).1.entries :=
    objcopy_inv (P := fun u => x ∈ u.entries)
      (Or.inr (fun u y tg _ hu => mem_symlinkTo hu)) h
  unfold crosPhase
  exact crosFold_inv (P := fun u => x ∈ u.entries) crosPairs _
    (fun u pr _ hu => mem_crosStep hu) h2

theorem binAlias_creates_clangpp {t : Tree} (hb : treeHas t ["bin"] = true)
    (hcc : treeHas t ["bin", "clang++"] = false) :
    (["bin", "clang++"], Node.symlink "clang") ∈ (binAliasBlock t).1.entries := by
  have h1 : symlinkTo t ["bin", "clang++"] "clang"
      = (⟨t.entries ++ [(["bin", "clang++"], Node.symlink "clang")]⟩, none) := by
    unfold symlinkTo
    rw [if_neg (by simp [hcc]),
      if_neg (by rw [show (["bin", "clang++"] : RelPath).dropLast = ["bin"] from rfl, hb]; simp)]
  unfold binAliasBlock
  rw [h1]
  refine andThen_pres (P := fun u => (["bin", "clang++"], Node.symlink "clang") ∈ u.entries)
    (by simp) (fun u0 hu0 => ?_)
  refine andThen_pres (P := fun u => (["bin", "clang++"], Node.symlink "clang") ∈ u.entries)
    (mem_symlinkTo hu0) (fun u hu => ?_)
  refine andThen_pres (P := fun u => (["bin", "clang++"], Node.symlink "clang") ∈ u.entries)
    ?_ (fun w hw => ?_)
  · by_cases hg : treeHas u ["bin", "lld"]
    · rw [if_pos hg]
      refine andThen_pres (P := fun v => (["bin", "clang++"], Node.symlink "clang") ∈ v.entries)
        (mem_symlinkTo hu) (fun a ha => ?_)
      refine andThen_pres (P := fun v => (["bin", "clang++"], Node.symlink "clang") ∈ v.entries)
        (mem_symlinkTo ha) (fun b hb2 => ?_)
      refine andThen_pres (P := fun v => (["bin", "clang++"], Node.symlink "clang") ∈ v.entries)
        (mem_symlinkTo hb2) (fun c hc => ?_)
      exact mem_symlinkTo hc
    · rw [if_neg hg]
      exact hu
  · by_cases hg : treeHas w ["bin", "llvm-readobj"]
    · rw [if_pos hg]
      exact mem_symlinkTo hw
    · rw [if_neg hg]
      exact hw

/-- C8 counterexample: on a staging tree whose `bin` directory exists but
contains no `clang`, the symlink phase still creates the `clang++` and
`clang-cl` aliases — dangling links to the absent target — contradicting
"each created only if its target exists". -/
theorem alias_dangling_cex :
    symlinkPhase "19" ⟨[(["bin"], Node.dir)]⟩
      = Except.ok ⟨[(["bin"], Node.dir), (["bin", "clang++"], Node.symlink "clang"),
          (["bin", "clang-cl"], Node.symlink "clang")]⟩ ∧
    treeHas ⟨[(["bin"], Node.dir)]⟩ ["bin", "clang"] = false :=
  ⟨rfl, by decide⟩

/-- C8 (amended): in the staged executable directory the `clang++` and
`clang-cl` aliases are created unconditionally — whenever the alias name is
free and the `bin` directory exists, even if the target `clang` is absent
(a dangling link) — while the remaining aliases are created only if their
targets exist: no `lld`-derived alias appears unless `bin/lld` exists,
`llvm-readelf` requires `bin/llvm-readobj`, `llvm-strip` and
`llvm-install-name-tool` require `bin/llvm-objcopy`, and each cros triple
symlink requires its vendor-neutral source directory.  An existing alias
raises `FileExistsError`, which aborts the remainder of its creation block
but is swallowed, so the phase still succeeds (no error) whenever the
staged `bin` directory exists. -/
theorem symlink_alias_spec :
    ∀ (rv : String) (t : Tree),
      (treeHas t ["bin"] = true →
        symlinkPhase rv t
          = Except.ok (crosPhase rv (objcopyAliasBlock (binAliasBlock t).1).1)) ∧
      (treeHas t ["bin"] = true → treeHas t ["bin", "clang++"] = false →
        ∀ t2, symlinkPhase rv t = Except.ok t2 →
          (["bin", "clang++"], Node.symlink "clang") ∈ t2.entries) ∧
      (treeHas t ["bin", "lld"] = false →
        ∀ t2, symlinkPhase rv t = Except.ok t2 →
          ∀ p ∈ ([["bin", "ld.lld"], ["bin", "ld64.lld"], ["bin", "lld-link"],
              ["bin", "wasm-ld"]] : List RelPath),
            ∀ n : Node, (p, n) ∈ t2.entries → (p, n) ∈ t.entries) ∧
      (treeHas t ["bin", "llvm-readobj"] = false →
        ∀ t2, symlinkPhase rv t = Except.ok t2 →
          ∀ n : Node, (["bin", "llvm-readelf"], n) ∈ t2.entries →
            (["bin", "llvm-readelf"], n) ∈ t.entries) ∧
      (treeHas t ["bin", "llvm-objcopy"] = false →
        ∀ t2, symlinkPhase rv t = Except.ok t2 →
          ∀ p ∈ ([["bin", "llvm-strip"], ["bin", "llvm-install-name-tool"]] : List RelPath),
            ∀ n : Node, (p, n) ∈ t2.entries → (p, n) ∈ t.entries) ∧
      (∀ pr ∈ crosPairs, treeHas t (crosOldPath rv pr) = false →
        ∀ t2, symlinkPhase rv t = Except.ok t2 →
          ∀ n : Node, (crosNewPath rv pr, n) ∈ t2.entries →
            (crosNewPath rv pr, n) ∈ t.entries) := by
  intro rv t
  refine ⟨fun hb => symlinkPhase_ok_of_bin rv hb, ?_, ?_, ?_, ?_, ?_⟩
  · intro hb hcc t2 hp
    rw [symlinkPhase_ok_eq hp]
    exact mem_post_blocks (binAlias_creates_clangpp hb hcc)
  · intro hlld t2 hp p hpmem n hm
    rw [symlinkPhase_ok_eq hp] at hm
    have h1 := binAlias_inv (P := GuardInv t ["bin", "lld"]
        [["bin", "ld.lld"], ["bin", "ld64.lld"], ["bin", "lld-link"], ["bin", "wasm-ld"]])
      (fun u x tg hx hu => by
        rcases hx with rfl | rfl <;> exact guardInv_symlinkTo (by decide) (by decide) hu)
      (Or.inl (fun u hu => hu.1))
      (Or.inr (fun u tg hu => guardInv_symlinkTo (by decide) (by decide) hu))
      ⟨hlld, fun q hq m hmm => hmm⟩
    have h2 := objcopy_inv (P := GuardInv t ["bin", "lld"]
        [["bin", "ld.lld"], ["bin", "ld64.lld"], ["bin", "lld-link"], ["bin", "wasm-ld"]])
      (Or.inr (fun u x tg hx hu => by
        rcases hx with rfl | rfl <;> exact guardInv_symlinkTo (by decide) (by decide) hu))
      h1
    have h3 : GuardInv t ["bin", "lld"]
        [["bin", "ld.lld"], ["bin", "ld64.lld"], ["bin", "lld-link"], ["bin", "wasm-ld"]]
        (crosPhase rv (objcopyAliasBlock (binAliasBlock t).1).1) := by
      unfold crosPhase
      refine crosFold_inv (P := GuardInv t ["bin", "lld"]
          [["bin", "ld.lld"], ["bin", "ld64.lld"], ["bin", "lld-link"], ["bin", "wasm-ld"]])
        crosPairs _ (fun u pr hpr hu => ?_) h2
      refine guardInv_crosStep (Or.inl ⟨isLead_cons_ne (by decide) _ _, ?_⟩) hu
      intro hmem
      simp [crosNewPath] at hmem
    exact h3.2 p hpmem n hm
  · intro hrdo t2 hp n hm
    rw [symlinkPhase_ok_eq hp] at hm
    have h1 := binAlias_inv (P := GuardInv t ["bin", "llvm-readobj"] [["bin", "llvm-readelf"]])
      (fun u x tg hx hu => by
        rcases hx with rfl | rfl <;> exact guardInv_symlinkTo (by decide) (by decide) hu)
      (Or.inr (fun u x tg hx hu => by
        rcases hx with rfl | rfl | rfl | rfl <;>
          exact guardInv_symlinkTo (by decide) (by decide) hu))
      (Or.inl (fun u hu => hu.1))
      ⟨hrdo, fun q hq m hmm => hmm⟩
    have h2 := objcopy_inv (P := GuardInv t ["bin", "llvm-readobj"] [["bin", "llvm-readelf"]])
      (Or.inr (fun u x tg hx hu => by
        rcases hx with rfl | rfl <;> exact guardInv_symlinkTo (by decide) (by decide) hu))
      h1
    have h3 : GuardInv t ["bin", "llvm-readobj"] [["bin", "llvm-readelf"]]
        (crosPhase rv (objcopyAliasBlock (binAliasBlock t).1).1) := by
      unfold crosPhase
      refine crosFold_inv (P := GuardInv t ["bin", "llvm-readobj"] [["bin", "llvm-readelf"]])
        crosPairs _ (fun u pr hpr hu => ?_) h2
      refine guardInv_crosStep (Or.inl ⟨isLead_cons_ne (by decide) _ _, ?_⟩) hu
      intro hmem
      simp [crosNewPath] at hmem
    exact h3.2 ["bin", "llvm-readelf"] (by simp) n hm
  · intro hobj t2 hp p hpmem n hm
    rw [symlinkPhase_ok_eq hp] at hm
    have h1 := binAlias_inv (P := GuardInv t ["bin", "llvm-objcopy"]
        [["bin", "llvm-strip"], ["bin", "llvm-install-name-tool"]])
      (fun u x tg hx hu => by
        rcases hx with rfl | rfl <;> exact guardInv_symlinkTo (by decide) (by decide) hu)
      (Or.inr (fun u x tg hx hu => by
        rcases hx with rfl | rfl | rfl | rfl <;>
          exact guardInv_symlinkTo (by decide) (by decide) hu))
      (Or.inr (fun u tg hu => guardInv_symlinkTo (by decide) (by decide) hu))
      ⟨hobj, fun q hq m hmm => hmm⟩
    have h2 := objcopy_inv (P := GuardInv t ["bin", "llvm-objcopy"]
        [["bin", "llvm-strip"], ["bin", "llvm-install-name-tool"]])
      (Or.inl (fun u hu => hu.1))
      h1
    have h3 : GuardInv t ["bin", "llvm-objcopy"]
        [["bin", "llvm-strip"], ["bin", "llvm-install-name-tool"]]
        (crosPhase rv (objcopyAliasBlock (binAliasBlock t).1).1) := by
      unfold crosPhase
      refine crosFold_inv (P := GuardInv t ["bin", "llvm-objcopy"]
          [["bin", "llvm-strip"], ["bin", "llvm-install-name-tool"]])
        crosPairs _ (fun u pr hpr hu => ?_) h2
      refine guardInv_crosStep (Or.inl ⟨isLead_cons_ne (by decide) _ _, ?_⟩) hu
      intro hmem
      simp [crosNewPath] at hmem
    exact h3.2 p hpmem n hm
  · intro pr hpr hold t2 hp n hm
    rw [symlinkPhase_ok_eq hp] at hm
    have hbin : ∀ (u : Tree) (x tg : String),
        GuardInv t (crosOldPath rv pr) [crosNewPath rv pr] u →
        GuardInv t (crosOldPath rv pr) [crosNewPath rv pr] (symlinkTo u ["bin", x] tg).1 := by
      intro u x tg hu
      refine guardInv_symlinkTo ?_ ?_ hu
      · exact isLead_cons_ne (by decide) _ _
      · intro hmem
        simp [crosNewPath] at hmem
    have h1 := binAlias_inv (P := GuardInv t (crosOldPath rv pr) [crosNewPath rv pr])
      (fun u x tg _ hu => hbin u x tg hu)
      (Or.inr (fun u x tg _ hu => hbin u x tg hu))
      (Or.inr (fun u tg hu => hbin u "llvm-readelf" tg hu))
      ⟨hold, fun q hq m hmm => hmm⟩
    have h2 := objcopy_inv (P := GuardInv t (crosOldPath rv pr) [crosNewPath rv pr])
      (Or.inr (fun u x tg _ hu => hbin u x tg hu))
      h1
    have h3 : GuardInv t (crosOldPath rv pr) [crosNewPath rv pr]
        (crosPhase rv (objcopyAliasBlock (binAliasBlock t).1).1) := by
      unfold crosPhase
      refine crosFold_inv (P := GuardInv t (crosOldPath rv pr) [crosNewPath rv pr])
        crosPairs _ (fun u pq hpq hu => ?_) h2
      simp only [crosPairs, List.mem_cons, List.not_mem_nil, or_false] at hpr hpq
      rcases hpq with rfl | rfl | rfl <;> rcases hpr with rfl | rfl | rfl <;>
        first
        | exact guardInv_crosStep (Or.inr rfl) hu
        | exact guardInv_crosStep (Or.inl
            ⟨by simp [crosOldPath, crosNewPath, crosNew, isLead],
             by intro hmem; simp [crosNewPath, crosNew] at hmem⟩) hu
    exact h3.2 (crosNewPath rv pr) (by simp) n hm

/-- Witness for C8 (amended): on a staging tree with only a `bin` directory
the phase succeeds, returning exactly the block-by-block result. -/
theorem symlink_alias_spec_witness :
    symlinkPhase "19" ⟨[(["bin"], Node.dir)]⟩
      = Except.ok (crosPhase "19"
          (objcopyAliasBlock (binAliasBlock ⟨[(["bin"], Node.dir)]⟩).1).1) :=
  (symlink_alias_spec "19" ⟨[(["bin"], Node.dir)]⟩).1 (by decide)

end BuildToolchain
